/-
Verification of the polann feed-forward neural-network engine.

Shallow embedding notes:
- `float` values are modelled as exact rationals (`ℚ`); the Xavier
  initialisation limit involves a square root and is modelled over `ℝ`.
- `std::array<float, N>` buffers are modelled as total functions `ℕ → ℚ`
  (reads/writes beyond `N` never occur in the modelled code paths);
  `std::vector<float>` / `std::span<const float>` values, whose runtime
  lengths are checked by the code, are modelled as `List ℚ`.
- A thrown `std::runtime_error` / `std::invalid_argument` /
  `std::out_of_range` is modelled as an `Except`/`Option` error value;
  an out-of-bounds span access (undefined behaviour in C++) is modelled
  as a dedicated `outOfRange` error value.
-/
import Mathlib

/-- Sum of `f 0 + f 1 + ... + f (n-1)`, the result of a `for` loop
accumulating `f k` over `k < n`. -/
def sumRange (n : ℕ) (f : ℕ → ℚ) : ℚ :=
  ((List.range n).map f).sum

/-- Pointwise update of a function-modelled array: `buf[j] = v`. -/
def upd (f : ℕ → ℚ) (j : ℕ) (v : ℚ) : ℕ → ℚ :=
  fun k => if k = j then v else f k

/-- Activation-function interface, from the `ActivationFunction` concept in
`polann/layers/dense.hpp`: a `compute`/`derivative` pair of `float → float`
functions. -/
structure ActivationFunction where
  compute : ℚ → ℚ
  derivative : ℚ → ℚ

/-- The `polann::utils::Identity` activation: `compute(x) = x`,
`derivative(y) = 1`. -/
def Identity : ActivationFunction where
  compute := fun x => x
  derivative := fun _ => 1

/-- The `polann::utils::ReLU` activation: `compute(x) = max(0, x)`,
`derivative(y) = if y > 0 then 1 else 0`. -/
def ReLU : ActivationFunction where
  compute := fun x => max 0 x
  derivative := fun y => if 0 < y then 1 else 0

/-- The `polann::layers::Dense<Activation, InputSize, OutputSize>` layer
(`polann/layers/dense.hpp`, trainable variant): flattened row-major weight
matrix, biases, gradient accumulators and the forward-pass caches. -/
structure DenseLayer (inSize outSize : ℕ) where
  weights : ℕ → ℚ
  biases : ℕ → ℚ
  gradWeights : ℕ → ℚ
  gradBiases : ℕ → ℚ
  lastInput : ℕ → ℚ
  lastActivation : ℕ → ℚ

/-- `Dense::forward(in, out)`: stores the first `InputSize` entries of `in`
into `lastInput`, then for each `o < OutputSize` computes
`sum = biases[o] + Σ_i in[i] * weights[o*InputSize + i]`, stores the
post-activation value in `lastActivation[o]` and writes it to `out[o]`.
Returns the updated layer (caches) and the written output buffer. -/
def DenseLayer.forward {i o : ℕ} (A : ActivationFunction) (l : DenseLayer i o)
    (inp out : ℕ → ℚ) : DenseLayer i o × (ℕ → ℚ) :=
  let li : ℕ → ℚ := fun k => if k < i then inp k else l.lastInput k
  let la : ℕ → ℚ := fun oIdx =>
    if oIdx < o then
      A.compute (l.biases oIdx + sumRange i (fun k => inp k * l.weights (oIdx * i + k)))
    else l.lastActivation oIdx
  let outNew : ℕ → ℚ := fun oIdx => if oIdx < o then la oIdx else out oIdx
  ({ l with lastInput := li, lastActivation := la }, outNew)

/-- Body of the inner loop of `Dense::backward` for a fixed output unit
`oIdx` and loop variable `k`:
`gradInput[k] += delta * weights[oIdx*InputSize + k]` and
`gradWeights[oIdx*InputSize + k] += delta * lastInput[k]`.
The state is the pair `(gradInput, gradWeights)`. -/
def bwInnerStep (delta : ℚ) (oIdx i : ℕ) (w x : ℕ → ℚ)
    (p : (ℕ → ℚ) × (ℕ → ℚ)) (k : ℕ) : (ℕ → ℚ) × (ℕ → ℚ) :=
  (upd p.1 k (p.1 k + delta * w (oIdx * i + k)),
   upd p.2 (oIdx * i + k) (p.2 (oIdx * i + k) + delta * x k))

/-- Body of the outer loop of `Dense::backward` for output unit `oIdx`:
computes `delta = gradOutput[oIdx] * Activation::derivative(lastActivation[oIdx])`,
accumulates `gradBiases[oIdx] += delta` and runs the inner loop over all
input indices. The state is the triple `(gradBiases, gradWeights, gradInput)`. -/
def bwOuterStep {i o : ℕ} (A : ActivationFunction) (l : DenseLayer i o)
    (gradOutput : ℕ → ℚ)
    (st : (ℕ → ℚ) × (ℕ → ℚ) × (ℕ → ℚ)) (oIdx : ℕ) :
    (ℕ → ℚ) × (ℕ → ℚ) × (ℕ → ℚ) :=
  let delta := gradOutput oIdx * A.derivative (l.lastActivation oIdx)
  let inner := (List.range i).foldl
    (bwInnerStep delta oIdx i l.weights l.lastInput) (st.2.2, st.2.1)
  (upd st.1 oIdx (st.1 oIdx + delta), inner.2, inner.1)

/-- `Dense::backward(gradOutput, gradInput)`: first zeroes the first
`InputSize` entries of `gradInput`, then loops over every output unit,
accumulating bias/weight gradients and the input gradient. Returns the
updated layer and the written `gradInput` buffer. -/
def DenseLayer.backward {i o : ℕ} (A : ActivationFunction) (l : DenseLayer i o)
    (gradOutput gradInput : ℕ → ℚ) : DenseLayer i o × (ℕ → ℚ) :=
  let gi0 : ℕ → ℚ := fun k => if k < i then 0 else gradInput k
  let st := (List.range o).foldl (bwOuterStep A l gradOutput)
    (l.gradBiases, l.gradWeights, gi0)
  ({ l with gradBiases := st.1, gradWeights := st.2.1 }, st.2.2)

/-- Reads the first `n` entries of a function-modelled buffer as a list. -/
def bufList (f : ℕ → ℚ) (n : ℕ) : List ℚ :=
  (List.range n).map f

/-- Error values raised by the MSE loss kernel (`polann/loss/mse.hpp`).
`sizeMismatch` models the thrown `std::runtime_error`; `outOfRange` models
an out-of-bounds span access (undefined behaviour in the C++). -/
inductive LossErr where
  | sizeMismatch : LossErr
  | outOfRange : LossErr
deriving DecidableEq

/-- Accumulation loop of `MSE::compute`: walks both spans in lock step and
sums `diff * diff`. The caller has already checked that the spans have
equal length, so the loop never reads out of bounds. -/
def mseSum : List ℚ → List ℚ → ℚ
  | [], _ => 0
  | _ :: _, [] => 0
  | p :: ps, t :: ts => (p - t) * (p - t) + mseSum ps ts

/-- `polann::loss::MSE::compute(yPredict, yTrue)`: throws `sizeMismatch`
when the span lengths differ, otherwise returns `sum / n`.
When `n = 0` the C++ computes `0.0f / 0.0f = NaN`; the NaN result is
modelled as `none`. -/
def MSE.compute (yPredict yTrue : List ℚ) : Except LossErr (Option ℚ) :=
  if yPredict.length ≠ yTrue.length then .error .sizeMismatch
  else
    let n := yPredict.length
    let sum := mseSum yPredict yTrue
    .ok (if n = 0 then none else some (sum / (n : ℚ)))

/-- Write loop of `MSE::gradient`: for each prediction it reads the
matching entry of `yTrue` and writes `invN * (yPredict[i] - yTrue[i])`.
If `yTrue` is exhausted before `yPredict`, the C++ indexes `yTrue` past
its end; this is modelled as `none`. -/
def mseGradGo (invN : ℚ) : List ℚ → List ℚ → Option (List ℚ)
  | [], _ => some []
  | _ :: _, [] => none
  | p :: ps, t :: ts => (mseGradGo invN ps ts).map (fun r => invN * (p - t) :: r)

/-- `polann::loss::MSE::gradient(yPredict, yTrue, gradOut)`: throws
`sizeMismatch` when `gradOut` and `yPredict` lengths differ (the only
length check in the source), otherwise writes
`gradOut[i] = (2/n) * (yPredict[i] - yTrue[i])` for every `i < n`,
where `n = yPredict.length`. Returns the written contents of `gradOut`. -/
def MSE.gradient (yPredict yTrue gradOut : List ℚ) : Except LossErr (List ℚ) :=
  if gradOut.length ≠ yPredict.length then .error .sizeMismatch
  else
    match mseGradGo (2 / (yPredict.length : ℚ)) yPredict yTrue with
    | some r => .ok r
    | none => .error .outOfRange

/-- Error values raised by `polann::core::Dataset`. -/
inductive DataErr where
  | invalidArgument : DataErr
  | indexOutOfRange : DataErr
deriving DecidableEq

/-- `polann::core::Dataset<InputSize, OutputSize>` (`part_005`): flattened
row-major sample storage plus the index permutation used for batching.
The reusable scratch buffers are not part of the logical state; `getBatch`
below directly returns the contents of the views it would produce. -/
structure Dataset (I O : ℕ) where
  inputs : List ℚ
  outputs : List ℚ
  indices : List ℕ
  numSamples : ℕ

/-- `Dataset::numBatches(batchSize)`: throws `invalid_argument` when
`batchSize == 0`, otherwise returns `(numSamples + batchSize - 1) / batchSize`. -/
def Dataset.numBatches {I O : ℕ} (d : Dataset I O) (batchSize : ℕ) :
    Except DataErr ℕ :=
  if batchSize = 0 then .error .invalidArgument
  else .ok ((d.numSamples + batchSize - 1) / batchSize)

/-- Contiguous read of `len` floats starting at offset `start`, as done by
`std::copy_n(data.data() + start, len, ...)`. -/
def rowSlice (data : List ℚ) (start len : ℕ) : List ℚ :=
  (data.drop start).take len

/-- `Dataset::getBatch(batchIndex, batchSize)`: throws `invalid_argument`
when `batchSize == 0` and `out_of_range` when
`batchIndex >= numBatches(batchSize)`; otherwise gathers
`actualBatchSize = endSample - startSample` rows through the current index
permutation and returns the contents of the two returned views (which span
exactly `actualBatchSize * InputSize` resp. `actualBatchSize * OutputSize`
floats of the scratch buffers). -/
def Dataset.getBatch {I O : ℕ} (d : Dataset I O) (batchIndex batchSize : ℕ) :
    Except DataErr (List ℚ × List ℚ) :=
  if batchSize = 0 then .error .invalidArgument
  else if (d.numSamples + batchSize - 1) / batchSize ≤ batchIndex then
    .error .indexOutOfRange
  else
    let startSample := batchIndex * batchSize
    let endSample := min (startSample + batchSize) d.numSamples
    let actualBatchSize := endSample - startSample
    let batchInputs := ((List.range actualBatchSize).map (fun s =>
      rowSlice d.inputs (d.indices.getD (startSample + s) 0 * I) I)).flatten
    let batchOutputs := ((List.range actualBatchSize).map (fun s =>
      rowSlice d.outputs (d.indices.getD (startSample + s) 0 * O) O)).flatten
    .ok (batchInputs, batchOutputs)

/-- Well-formedness of a dataset, maintained by `Dataset::addSample`:
the permutation has one entry per sample, every permutation entry is a
valid sample index, and the flattened storage has one row per sample. -/
def Dataset.wellFormed {I O : ℕ} (d : Dataset I O) : Prop :=
  d.indices.length = d.numSamples ∧
  (∀ x ∈ d.indices, x < d.numSamples) ∧
  d.inputs.length = d.numSamples * I ∧
  d.outputs.length = d.numSamples * O

instance {I O : ℕ} (d : Dataset I O) : Decidable d.wellFormed := by
  unfold Dataset.wellFormed
  infer_instance

/-- Shape of one layer of the template network: the `inputSize` /
`outputSize` compile-time constants every layer type exposes. -/
structure LayerSpec where
  inSize : ℕ
  outSize : ℕ
deriving DecidableEq

/-- Per-layer compile-time checks of `polann::layers::Dense`:
`static_assert(InputSize > 0)` and `static_assert(OutputSize > 0)`.
These are the only shape checks a layer performs. -/
def LayerSpec.valid (l : LayerSpec) : Bool :=
  decide (0 < l.inSize) && decide (0 < l.outSize)

/-- `polann::core::ModelBuilder::addLayer`: appends the new layer to the
ordered sequence; no check is performed. -/
def ModelBuilder.addLayer (ls : List LayerSpec) (l : LayerSpec) : List LayerSpec :=
  ls ++ [l]

/-- Construction of `polann::models::NN<Layers...>` from an ordered layer
sequence (`nn.hpp` constructor plus the per-layer `Dense` checks).
The only compile-time/construction-time checks in the source are
`static_assert(sizeof...(Layers) > 0)` and each layer's positive-width
asserts; adjacent input/output widths are never compared. `none` models a
failed `static_assert` (compilation failure). -/
def mkNN (ls : List LayerSpec) : Option (List LayerSpec) :=
  if ls.isEmpty then none
  else if ls.all LayerSpec.valid then some ls
  else none

/-- Predicate written from the spec's words (for comparison with `mkNN`,
not from the source): "an ordered, type-checked sequence of Layers where
adjacent widths must match" — the output width of layer `k` equals the
input width of layer `k+1`. -/
def specAdjacentWidthsMatch : List LayerSpec → Bool
  | [] => true
  | [_] => true
  | a :: b :: t => (a.outSize == b.inSize) && specAdjacentWidthsMatch (b :: t)

/-- One layer of the runtime network as used by `NN::predict`: its widths,
activation, and parameters (a trained `Dense` layer; the forward caches are
irrelevant to `predict`'s data flow). -/
structure NetLayer where
  inSize : ℕ
  outSize : ℕ
  act : ActivationFunction
  weights : ℕ → ℚ
  biases : ℕ → ℚ

/-- The pure input/output function of a layer's forward pass:
`out[o] = Activation::compute(biases[o] + Σ_i in[i] * weights[o*InputSize + i])`. -/
def NetLayer.apply (L : NetLayer) (inp : ℕ → ℚ) : ℕ → ℚ :=
  fun oIdx =>
    L.act.compute (L.biases oIdx +
      sumRange L.inSize (fun k => inp k * L.weights (oIdx * L.inSize + k)))

/-- `NN::selectInputBuffer<useBuf1>(buf1, buf2)`: index of the buffer a
layer reads from (`0` = `buf1`, `1` = `buf2`). -/
def NN.selectInputBuffer (useBuf1 : Bool) : Fin 2 :=
  if useBuf1 then 0 else 1

/-- `NN::selectOutputBuffer<useBuf1>(buf1, buf2)`: index of the buffer a
layer writes to (`0` = `buf1`, `1` = `buf2`). -/
def NN.selectOutputBuffer (useBuf1 : Bool) : Fin 2 :=
  if useBuf1 then 1 else 0

/-- The effect of `layer.forward(inBuf, outBuf)` on the output buffer:
entries below `outputSize` are overwritten with the layer's output, the
rest of the scratch buffer is left untouched. -/
def writeForward (L : NetLayer) (inp outBuf : ℕ → ℚ) : ℕ → ℚ :=
  fun j => if j < L.outSize then L.apply inp j else outBuf j

/-- `NN::forwardLayer<LayerIndex>(buf1, buf2)`: selects the input and
output buffers by the parity of the layer index (`LayerIndex % 2 == 0`)
and runs the layer's forward pass from one into the other. -/
def NN.forwardLayer (k : ℕ) (L : NetLayer) (bufs : Fin 2 → ℕ → ℚ) :
    Fin 2 → ℕ → ℚ :=
  fun b =>
    if b = NN.selectOutputBuffer (k % 2 == 0) then
      writeForward L (bufs (NN.selectInputBuffer (k % 2 == 0))) (bufs b)
    else bufs b

/-- The fold `((forwardLayer<I>(buf1, buf2)), ...)` of `NN::predictImpl`,
running the layers in order starting at layer index `k`. -/
def NN.predictImpl (Ls : List NetLayer) (k : ℕ) (bufs : Fin 2 → ℕ → ℚ) :
    Fin 2 → ℕ → ℚ :=
  match Ls with
  | [] => bufs
  | L :: rest => NN.predictImpl rest (k + 1) (NN.forwardLayer k L bufs)

/-- Input width of the network: `inputSize` of the first layer. -/
def firstInSize : List NetLayer → ℕ
  | [] => 0
  | L :: _ => L.inSize

/-- Output width of the network: `outputSize` of the last layer. -/
def lastOutSize : List NetLayer → ℕ
  | [] => 0
  | [L] => L.outSize
  | _ :: L :: rest => lastOutSize (L :: rest)

/-- Contents of scratch buffer A (`buf1`) right after
`std::copy(input.begin(), input.end(), buf1.begin())` on the
zero-initialised buffer. -/
def inputLoad (x : List ℚ) : ℕ → ℚ :=
  fun j => if j < x.length then x.getD j 0 else 0

/-- The two zero-initialised scratch buffers of `NN::predict` after the
input has been copied into `buf1`. -/
def initialBufs (x : List ℚ) : Fin 2 → ℕ → ℚ :=
  fun b => if b = 0 then inputLoad x else fun _ => 0

/-- `NN::predict(input)`: copies the input into scratch buffer `buf1`,
folds `forwardLayer` over all layers, then copies the first `outputSize`
entries out of the buffer selected by `lastLayerIndex % 2 == 0` into a
fresh zero-initialised result array. -/
def NN.predict (Ls : List NetLayer) (x : List ℚ) : ℕ → ℚ :=
  let final := NN.predictImpl Ls 0 (initialBufs x)
  fun j =>
    if j < lastOutSize Ls then
      final (NN.selectOutputBuffer ((Ls.length - 1) % 2 == 0)) j
    else 0

/-- Composition of the layers' pure forward functions, the mathematical
meaning of a full forward pass. -/
def chainApply (Ls : List NetLayer) (v : ℕ → ℚ) : ℕ → ℚ :=
  Ls.foldl (fun w L => L.apply w) v

/-- Adjacent widths match: output width of layer `k` equals input width of
layer `k+1` (the data-model invariant of a well-formed network). -/
def chainedB : List NetLayer → Bool
  | [] => true
  | [_] => true
  | a :: b :: t => (a.outSize == b.inSize) && chainedB (b :: t)

/-- Xavier/Glorot limit of the `Dense` constructor:
`limit = sqrt(6 / (InputSize + OutputSize))`. -/
noncomputable def xavierLimit (i o : ℕ) : ℝ :=
  Real.sqrt (6 / ((i : ℝ) + (o : ℝ)))

/-- One draw of `std::uniform_real_distribution<float>(-limit, limit)`,
parameterised by the generator's unit-interval value `u ∈ [0, 1)`:
the distribution maps it affinely onto `[-limit, limit)`. -/
noncomputable def xavierWeight (i o : ℕ) (u : ℝ) : ℝ :=
  -xavierLimit i o + u * (xavierLimit i o - -xavierLimit i o)

/-- The weights filled by `std::ranges::generate(weights, ...)` in the
`Dense` constructor, one uniform draw per entry. -/
noncomputable def xavierWeights (i o : ℕ) (us : ℕ → ℝ) : ℕ → ℝ :=
  fun idx => xavierWeight i o (us idx)

/-- The biases after `std::ranges::fill(biases, 0.0f)` in the `Dense`
constructor. -/
def xavierBiases : ℕ → ℝ :=
  fun _ => 0

/-- Concrete dataset with 1000 samples (input width 2, output width 1),
unshuffled. -/
def d1000 : Dataset 2 1 :=
  ⟨List.replicate 2000 0, List.replicate 1000 0, List.range 1000, 1000⟩

/-- Nat ceiling division: `(a + b - 1) / b` equals `⌈a / b⌉` for `b > 0`. -/
lemma natCeilDiv_eq (a b : ℕ) (hb : 0 < b) :
    ⌈(a : ℚ) / (b : ℚ)⌉₊ = (a + b - 1) / b := by
  have hbq : (0 : ℚ) < (b : ℚ) := by exact_mod_cast hb
  rcases Nat.eq_zero_or_pos a with ha | ha
  · subst ha
    simp only [Nat.cast_zero, zero_div, Nat.ceil_zero]
    rw [eq_comm, Nat.div_eq_of_lt]
    omega
  · apply le_antisymm
    · rw [Nat.ceil_le, div_le_iff₀ hbq]
      have h2 := Nat.div_add_mod (a + b - 1) b
      have h3 := Nat.mod_lt (a + b - 1) hb
      have h1 : (a : ℕ) ≤ (a + b - 1) / b * b := by
        rw [mul_comm]
        generalize hs : b * ((a + b - 1) / b) = s at h2
        omega
      exact_mod_cast h1
    · rw [Nat.div_le_iff_le_mul_add_pred hb]
      have h5 := Nat.le_ceil ((a : ℚ) / (b : ℚ))
      rw [div_le_iff₀ hbq] at h5
      have h4 : a ≤ ⌈(a : ℚ) / (b : ℚ)⌉₊ * b := by exact_mod_cast h5
      rw [mul_comm] at h4
      generalize hs : b * ⌈(a : ℚ) / (b : ℚ)⌉₊ = s at h4
      omega

/-- Claim C8: `numBatches(batchSize)` fails with `InvalidArgument` if and
only if `batchSize == 0`, and otherwise returns `ceil(numSamples /
batchSize)`; in particular over 1000 samples `numBatches(32)` returns 32. -/
theorem numBatches_spec {I O : ℕ} (d : Dataset I O) (bs : ℕ) (hbs : 0 < bs) :
    (∀ b : ℕ, d.numBatches b = .error .invalidArgument ↔ b = 0) ∧
    d.numBatches bs = .ok ⌈(d.numSamples : ℚ) / (bs : ℚ)⌉₊ ∧
    d1000.numBatches 32 = .ok 32 := by
  refine ⟨fun b => ?_, ?_, rfl⟩
  · by_cases hb : b = 0 <;> simp [Dataset.numBatches, hb]
  · have hbs' : bs ≠ 0 := Nat.pos_iff_ne_zero.mp hbs
    simp [Dataset.numBatches, hbs', natCeilDiv_eq d.numSamples bs hbs]

/-- Witness for C8 at the concrete 1000-sample dataset with batch size 32. -/
theorem numBatches_spec_witness :
    0 < 32 ∧
    ((∀ b : ℕ, d1000.numBatches b = .error .invalidArgument ↔ b = 0) ∧
     d1000.numBatches 32 = .ok ⌈(d1000.numSamples : ℚ) / (32 : ℚ)⌉₊ ∧
     d1000.numBatches 32 = .ok 32) :=
  ⟨by decide, numBatches_spec d1000 32 (by decide)⟩

/-- Counterexample to claim C4: a two-layer sequence whose adjacent widths
do not match (output width 3 followed by input width 5) is accepted by the
builder and constructs successfully; no ShapeMismatch-class failure occurs
at construction time. -/
theorem mkNN_mismatch_constructs :
    specAdjacentWidthsMatch [⟨2, 3⟩, ⟨5, 1⟩] = false ∧
    mkNN (ModelBuilder.addLayer (ModelBuilder.addLayer [] ⟨2, 3⟩) ⟨5, 1⟩) =
      some [⟨2, 3⟩, ⟨5, 1⟩] := by
  exact ⟨by decide, by decide⟩

/-- Claim C4 (amended): construction performs no adjacent-width
comparison. Any nonempty sequence of individually valid layers (positive
widths) constructs successfully, mismatched adjacent widths included; the
only construction-time rejection is the empty sequence (and non-positive
per-layer widths). -/
theorem mkNN_no_width_check (ls : List LayerSpec) (hne : ls ≠ [])
    (hv : ls.all LayerSpec.valid = true) :
    mkNN ls = some ls ∧ mkNN [] = none := by
  refine ⟨?_, rfl⟩
  simp [mkNN, hne, hv]

/-- Witness for the amended C4 at the mismatched two-layer sequence. -/
theorem mkNN_no_width_check_witness :
    ([⟨2, 3⟩, ⟨5, 1⟩] : List LayerSpec) ≠ [] ∧
    ([⟨2, 3⟩, ⟨5, 1⟩] : List LayerSpec).all LayerSpec.valid = true ∧
    (mkNN [⟨2, 3⟩, ⟨5, 1⟩] = some [⟨2, 3⟩, ⟨5, 1⟩] ∧ mkNN [] = none) :=
  ⟨by decide, by decide, mkNN_no_width_check [⟨2, 3⟩, ⟨5, 1⟩] (by decide) (by decide)⟩

/-- Claim C10: the only length check of `MSE::gradient` compares `gradOut`
against `yPredict`. With a target span strictly shorter than the
prediction span and a matching `gradOut`, no SizeMismatch is raised and
the target span is indexed past its end (the modelled out-of-range
access), so the prediction-versus-target length precondition is never
validated. -/
theorem mseGradient_target_oob :
    ([5] : List ℚ).length < ([1, 2] : List ℚ).length ∧
    ([0, 0] : List ℚ).length = ([1, 2] : List ℚ).length ∧
    MSE.gradient [1, 2] [5] [0, 0] = .error .outOfRange := by
  exact ⟨by decide, by decide, rfl⟩

/-- The accumulation loop of `MSE::compute` sums the squared differences
of the zipped spans. -/
lemma mseSum_eq_zip :
    ∀ p t : List ℚ,
      mseSum p t = ((p.zip t).map (fun q => (q.1 - q.2) * (q.1 - q.2))).sum := by
  intro p
  induction p with
  | nil => intro t; simp [mseSum]
  | cons a ps ih =>
    intro t
    cases t with
    | nil => simp [mseSum]
    | cons b ts => simp [mseSum, ih ts]

/-- Summing squared differences of a span against itself gives zero. -/
lemma mseSum_self (x : List ℚ) : mseSum x x = 0 := by
  induction x with
  | nil => rfl
  | cons a xs ih => simp [mseSum, ih]

/-- Counterexample to claim C6: on the empty vector, `MSE::compute(x, x)`
evaluates `0.0f / 0.0f`, a NaN (modelled as `none`), not `0`. -/
theorem mseCompute_empty_nan :
    MSE.compute ([] : List ℚ) [] = .ok none ∧
    MSE.compute ([] : List ℚ) [] ≠ .ok (some 0) := by
  refine ⟨rfl, ?_⟩
  simp [MSE.compute]

/-- Claim C6 (amended): `MSE::compute` fails with SizeMismatch exactly
when the span lengths differ, and otherwise — for nonempty spans —
returns the mean of the squared differences; in particular
`compute(x, x) == 0` for every nonempty `x` (for the empty vector the
division `0/0` yields NaN instead). -/
theorem mseCompute_spec (p t x : List ℚ) (hlen : p.length = t.length)
    (hp : p ≠ []) (hx : x ≠ []) :
    (∀ a b : List ℚ, MSE.compute a b = .error .sizeMismatch ↔ a.length ≠ b.length) ∧
    MSE.compute p t =
      .ok (some (((p.zip t).map (fun q => (q.1 - q.2) * (q.1 - q.2))).sum /
        (p.length : ℚ))) ∧
    MSE.compute x x = .ok (some 0) := by
  refine ⟨fun a b => ?_, ?_, ?_⟩
  · by_cases h : a.length = b.length <;> simp [MSE.compute, h]
  · have hp' : p.length ≠ 0 := by
      simpa [List.length_eq_zero] using hp
    have ht' : t ≠ [] := by
      intro h
      rw [h] at hlen
      simp at hlen
      exact hp hlen
    simp [MSE.compute, hlen, hp', ht', mseSum_eq_zip]
  · have hx' : x.length ≠ 0 := by
      simpa [List.length_eq_zero] using hx
    simp [MSE.compute, hx', mseSum_self]

/-- Witness for the amended C6 at concrete vectors. -/
theorem mseCompute_spec_witness :
    ([1, 2] : List ℚ).length = ([3, 5] : List ℚ).length ∧
    ([1, 2] : List ℚ) ≠ [] ∧
    ([7] : List ℚ) ≠ [] ∧
    ((∀ a b : List ℚ, MSE.compute a b = .error .sizeMismatch ↔ a.length ≠ b.length) ∧
     MSE.compute [1, 2] [3, 5] =
       .ok (some (((([1, 2] : List ℚ).zip [3, 5]).map
         (fun q => (q.1 - q.2) * (q.1 - q.2))).sum / (([1, 2] : List ℚ).length : ℚ))) ∧
     MSE.compute [7] [7] = .ok (some 0)) :=
  ⟨by decide, by decide, by decide,
   mseCompute_spec [1, 2] [3, 5] [7] (by decide) (by decide) (by decide)⟩

/-- The write loop of `MSE::gradient` succeeds whenever the target span
covers the prediction span, writing `invN * (yPredict[i] - yTrue[i])` at
every index. -/
lemma mseGradGo_some (c : ℚ) :
    ∀ p t : List ℚ, p.length ≤ t.length →
      mseGradGo c p t =
        some ((List.range p.length).map (fun idx => c * (p.getD idx 0 - t.getD idx 0))) := by
  intro p
  induction p with
  | nil => intro t _; simp [mseGradGo]
  | cons a ps ih =>
    intro t hlen
    cases t with
    | nil => simp at hlen
    | cons b ts =>
      simp only [List.length_cons, Nat.succ_le_succ_iff] at hlen
      simp [mseGradGo, ih ts hlen, List.range_succ_eq_map, List.map_map,
        Function.comp_def]

/-- Claim C5: `MSE::gradient(pred, true, out)` raises SizeMismatch if and
only if the length of `out` differs from the length of `pred`; otherwise
(the target covering the prediction, the contract of every call site) it
writes `out_i = (2/n) * (pred_i - true_i)` for every index `i`, with
`n = pred.length`. -/
theorem mseGradient_spec (p t o : List ℚ) (ho : o.length = p.length)
    (hcov : p.length ≤ t.length) :
    (∀ a b c : List ℚ,
      MSE.gradient a b c = .error .sizeMismatch ↔ c.length ≠ a.length) ∧
    MSE.gradient p t o =
      .ok ((List.range p.length).map
        (fun idx => 2 / (p.length : ℚ) * (p.getD idx 0 - t.getD idx 0))) := by
  constructor
  · intro a b c
    by_cases h : c.length = a.length
    · rw [MSE.gradient, if_neg (not_ne_iff.mpr h)]
      cases hgo : mseGradGo (2 / (a.length : ℚ)) a b <;> simp [hgo, h]
    · simp [MSE.gradient, h]
  · simp [MSE.gradient, ho, mseGradGo_some _ p t hcov]

/-- Witness for C5 at concrete vectors. -/
theorem mseGradient_spec_witness :
    ([0, 0] : List ℚ).length = ([1, 2] : List ℚ).length ∧
    ([1, 2] : List ℚ).length ≤ ([3, 4, 9] : List ℚ).length ∧
    ((∀ a b c : List ℚ,
       MSE.gradient a b c = .error .sizeMismatch ↔ c.length ≠ a.length) ∧
     MSE.gradient [1, 2] [3, 4, 9] [0, 0] =
       .ok ((List.range ([1, 2] : List ℚ).length).map
         (fun idx => 2 / (([1, 2] : List ℚ).length : ℚ) *
           (([1, 2] : List ℚ).getD idx 0 - ([3, 4, 9] : List ℚ).getD idx 0)))) :=
  ⟨by decide, by decide, mseGradient_spec [1, 2] [3, 4, 9] [0, 0] (by decide) (by decide)⟩

/-- Claim C9: after construction of a Dense layer, every generated weight
lies in `[-limit, limit]` with `limit = sqrt(6/(in+out))`, and every bias
is exactly zero. The generator draws are parameterised by their
unit-interval values `us idx ∈ [0, 1)`, which the distribution maps
affinely onto `[-limit, limit)`. -/
theorem xavier_init_spec (i o : ℕ) (us : ℕ → ℝ)
    (h0 : ∀ idx, 0 ≤ us idx) (h1 : ∀ idx, us idx < 1) :
    (∀ idx, -xavierLimit i o ≤ xavierWeights i o us idx ∧
      xavierWeights i o us idx ≤ xavierLimit i o) ∧
    (∀ k, xavierBiases k = 0) := by
  constructor
  · intro idx
    have hL : 0 ≤ xavierLimit i o := Real.sqrt_nonneg _
    have h2 : 0 ≤ xavierLimit i o - -xavierLimit i o := by linarith
    constructor
    · have h3 := mul_nonneg (h0 idx) h2
      simp only [xavierWeights, xavierWeight]
      linarith
    · have h4 := mul_le_mul_of_nonneg_right (le_of_lt (h1 idx)) h2
      simp only [xavierWeights, xavierWeight]
      linarith
  · intro k
    rfl

/-- Witness for C9 with all generator draws at 0, for a 2-to-3 layer. -/
theorem xavier_init_spec_witness :
    (∀ idx : ℕ, (0 : ℝ) ≤ (fun _ => (0 : ℝ)) idx) ∧
    (∀ idx : ℕ, (fun _ => (0 : ℝ)) idx < 1) ∧
    ((∀ idx, -xavierLimit 2 3 ≤ xavierWeights 2 3 (fun _ => (0 : ℝ)) idx ∧
       xavierWeights 2 3 (fun _ => (0 : ℝ)) idx ≤ xavierLimit 2 3) ∧
     (∀ k, xavierBiases k = 0)) :=
  ⟨fun _ => le_refl 0, fun _ => zero_lt_one,
   xavier_init_spec 2 3 (fun _ => (0 : ℝ)) (fun _ => le_refl 0) (fun _ => zero_lt_one)⟩

/-- Concrete `Dense(2 -> 1, Identity)` layer with weights `[1, 1]` and
bias `0` (gradients and caches zeroed). -/
def d21 : DenseLayer 2 1 where
  weights := fun idx => ([1, 1] : List ℚ).getD idx 0
  biases := fun _ => 0
  gradWeights := fun _ => 0
  gradBiases := fun _ => 0
  lastInput := fun _ => 0
  lastActivation := fun _ => 0

/-- Claim C2: `Dense::forward` writes
`out[o] = Activation::compute(biases[o] + Σ_i in[i] * weights[o*InputSize + i])`
(row-major weights) into the caller-provided destination, and caches the
input and the post-activation output for the subsequent backward call; in
particular `Dense(2 -> 1, Identity)` with weights `[1, 1]` and bias `0`
maps input `[0.5, 0.5]` to output `[1.0]`. -/
theorem dense_forward_spec {i o : ℕ} (A : ActivationFunction)
    (l : DenseLayer i o) (inp out : ℕ → ℚ) (oIdx k : ℕ)
    (ho : oIdx < o) (hk : k < i) :
    (l.forward A inp out).2 oIdx =
      A.compute (l.biases oIdx +
        sumRange i (fun j => inp j * l.weights (oIdx * i + j))) ∧
    (l.forward A inp out).1.lastInput k = inp k ∧
    (l.forward A inp out).1.lastActivation oIdx = (l.forward A inp out).2 oIdx ∧
    bufList ((d21.forward Identity (inputLoad [1/2, 1/2]) (fun _ => 0)).2) 1 =
      [1] := by
  refine ⟨?_, ?_, ?_, ?_⟩
  · simp [DenseLayer.forward, ho]
  · simp [DenseLayer.forward, hk]
  · simp [DenseLayer.forward, ho]
  · norm_num [bufList, DenseLayer.forward, d21, inputLoad, Identity,
      sumRange, List.range_succ]

/-- Witness for C2 at the concrete `Dense(2 -> 1, Identity)` layer on
input `[0.5, 0.5]`. -/
theorem dense_forward_spec_witness :
    0 < 1 ∧ 1 < 2 ∧
    ((d21.forward Identity (inputLoad [1/2, 1/2]) (fun _ => 0)).2 0 =
       Identity.compute (d21.biases 0 +
         sumRange 2 (fun j => inputLoad [1/2, 1/2] j * d21.weights (0 * 2 + j))) ∧
     (d21.forward Identity (inputLoad [1/2, 1/2]) (fun _ => 0)).1.lastInput 1 =
       inputLoad [1/2, 1/2] 1 ∧
     (d21.forward Identity (inputLoad [1/2, 1/2]) (fun _ => 0)).1.lastActivation 0 =
       (d21.forward Identity (inputLoad [1/2, 1/2]) (fun _ => 0)).2 0 ∧
     bufList ((d21.forward Identity (inputLoad [1/2, 1/2]) (fun _ => 0)).2) 1 =
       [1]) :=
  ⟨by decide, by decide,
   dense_forward_spec Identity d21 (inputLoad [1/2, 1/2]) (fun _ => 0) 0 1
     (by decide) (by decide)⟩

/-- Length of a contiguous read that stays inside the data. -/
lemma rowSlice_length (data : List ℚ) (start len : ℕ)
    (h : start + len ≤ data.length) : (rowSlice data start len).length = len := by
  simp [rowSlice]
  omega

/-- Length of a gather of `m` rows of `L` floats each. -/
lemma flatten_map_length (m L : ℕ) (g : ℕ → List ℚ)
    (h : ∀ s < m, (g s).length = L) :
    (((List.range m).map g).flatten).length = m * L := by
  induction m with
  | zero => simp
  | succ n ih =>
    rw [List.range_succ, List.map_append, List.flatten_append]
    simp only [List.map_cons, List.map_nil, List.flatten_cons, List.flatten_nil,
      List.append_nil, List.length_append]
    rw [ih (fun s hs => h s (by omega)), h n (by omega), Nat.succ_mul]

/-- The `s`-th row of a gather of rows of `L` floats each. -/
lemma flatten_map_block (m L : ℕ) (g : ℕ → List ℚ)
    (h : ∀ s < m, (g s).length = L) (s : ℕ) (hs : s < m) :
    ((((List.range m).map g).flatten).drop (s * L)).take L = g s := by
  induction m with
  | zero => omega
  | succ n ih =>
    rw [List.range_succ, List.map_append, List.flatten_append]
    simp only [List.map_cons, List.map_nil, List.flatten_cons, List.flatten_nil,
      List.append_nil]
    have hlen : (((List.range n).map g).flatten).length = n * L :=
      flatten_map_length n L g (fun u hu => h u (by omega))
    rcases Nat.lt_or_ge s n with hsn | hsn
    · have h1 : s * L ≤ (((List.range n).map g).flatten).length := by
        rw [hlen]
        exact Nat.mul_le_mul_right L (by omega)
      rw [List.drop_append_of_le_length h1]
      have h2 : L ≤ ((((List.range n).map g).flatten).drop (s * L)).length := by
        rw [List.length_drop, hlen]
        have h3 : (s + 1) * L ≤ n * L := Nat.mul_le_mul_right L (by omega)
        rw [Nat.succ_mul] at h3
        omega
      rw [List.take_append_of_le_length h2]
      exact ih (fun u hu => h u (by omega)) hsn
    · have hsn' : s = n := by omega
      subst hsn'
      have h4 : s * L = (((List.range s).map g).flatten).length + 0 := by omega
      rw [h4, List.drop_append, List.drop_zero]
      exact List.take_of_length_le (by rw [h s (by omega)])

/-- Unshuffled concrete dataset of 4 one-float samples. -/
def d4 : Dataset 1 1 :=
  ⟨[10, 20, 30, 40], [5, 6, 7, 8], [0, 1, 2, 3], 4⟩

/-- Claim C7: `getBatch(batchIndex, batchSize)` fails with an
IndexOutOfRange-class error when `batchIndex >= numBatches(batchSize)`;
otherwise it gathers exactly `actualBatchSize = min(batchSize,
numSamples - batchIndex*batchSize)` samples, selected through the current
index permutation, and returns views covering exactly `actualBatchSize`
rows. Over the unshuffled 4-sample dataset with batch size 2, batches 0
and 1 together cover each of the 4 original sample rows exactly once. -/
theorem getBatch_spec {I O : ℕ} (d : Dataset I O) (bi bs : ℕ)
    (hwf : d.wellFormed) (hbs : 0 < bs) :
    ((d.numSamples + bs - 1) / bs ≤ bi →
      d.getBatch bi bs = .error .indexOutOfRange) ∧
    (bi < (d.numSamples + bs - 1) / bs →
      ∀ pr, d.getBatch bi bs = .ok pr →
        pr.1.length = min bs (d.numSamples - bi * bs) * I ∧
        pr.2.length = min bs (d.numSamples - bi * bs) * O ∧
        (∀ s < min bs (d.numSamples - bi * bs),
          (pr.1.drop (s * I)).take I =
            rowSlice d.inputs (d.indices.getD (bi * bs + s) 0 * I) I)) ∧
    (d4.getBatch 0 2 = .ok ([10, 20], [5, 6]) ∧
     d4.getBatch 1 2 = .ok ([30, 40], [7, 8])) := by
  have hbs0 : ¬ bs = 0 := Nat.pos_iff_ne_zero.mp hbs
  refine ⟨fun h => ?_, fun h pr heq => ?_, rfl, rfl⟩
  · simp [Dataset.getBatch, hbs0, h]
  · rw [Dataset.getBatch, if_neg hbs0, if_neg (by omega)] at heq
    simp only [Except.ok.injEq] at heq
    subst heq
    have hlt : bi * bs < d.numSamples := by
      have hq := Nat.div_mul_le_self (d.numSamples + bs - 1) bs
      have hm := Nat.mul_le_mul_right bs (Nat.succ_le_of_lt h)
      rw [Nat.succ_mul] at hm
      generalize hA : bi * bs = A at *
      generalize hB : (d.numSamples + bs - 1) / bs * bs = B at *
      omega
    have hact : min (bi * bs + bs) d.numSamples - bi * bs =
        min bs (d.numSamples - bi * bs) := by omega
    have hidx : ∀ s, s < min bs (d.numSamples - bi * bs) →
        d.indices.getD (bi * bs + s) 0 < d.numSamples := by
      intro s hs
      have hpos : bi * bs + s < d.indices.length := by
        rw [hwf.1]
        omega
      rw [List.getD_eq_getElem d.indices 0 hpos]
      exact hwf.2.1 _ (List.getElem_mem hpos)
    have hrowIn : ∀ s < min bs (d.numSamples - bi * bs),
        (rowSlice d.inputs (d.indices.getD (bi * bs + s) 0 * I) I).length = I := by
      intro s hs
      apply rowSlice_length
      rw [hwf.2.2.1]
      have h5 : (d.indices.getD (bi * bs + s) 0 + 1) * I ≤ d.numSamples * I :=
        Nat.mul_le_mul_right I (Nat.succ_le_of_lt (hidx s hs))
      rw [Nat.succ_mul] at h5
      exact h5
    have hrowOut : ∀ s < min bs (d.numSamples - bi * bs),
        (rowSlice d.outputs (d.indices.getD (bi * bs + s) 0 * O) O).length = O := by
      intro s hs
      apply rowSlice_length
      rw [hwf.2.2.2]
      have h5 : (d.indices.getD (bi * bs + s) 0 + 1) * O ≤ d.numSamples * O :=
        Nat.mul_le_mul_right O (Nat.succ_le_of_lt (hidx s hs))
      rw [Nat.succ_mul] at h5
      exact h5
    refine ⟨?_, ?_, ?_⟩
    · rw [hact]
      exact flatten_map_length _ I _ hrowIn
    · rw [hact]
      exact flatten_map_length _ O _ hrowOut
    · intro s hs
      rw [hact]
      exact flatten_map_block _ I _ hrowIn s (by omega)

/-- Witness for C7 at the concrete 4-sample dataset, batch index 0 of
size 2. -/
theorem getBatch_spec_witness :
    d4.wellFormed ∧ 0 < 2 ∧
    (((d4.numSamples + 2 - 1) / 2 ≤ 0 →
       d4.getBatch 0 2 = .error .indexOutOfRange) ∧
     (0 < (d4.numSamples + 2 - 1) / 2 →
       ∀ pr, d4.getBatch 0 2 = .ok pr →
         pr.1.length = min 2 (d4.numSamples - 0 * 2) * 1 ∧
         pr.2.length = min 2 (d4.numSamples - 0 * 2) * 1 ∧
         (∀ s < min 2 (d4.numSamples - 0 * 2),
           (pr.1.drop (s * 1)).take 1 =
             rowSlice d4.inputs (d4.indices.getD (0 * 2 + s) 0 * 1) 1)) ∧
     (d4.getBatch 0 2 = .ok ([10, 20], [5, 6]) ∧
      d4.getBatch 1 2 = .ok ([30, 40], [7, 8]))) :=
  ⟨by decide, by decide, getBatch_spec d4 0 2 (by decide) (by decide)⟩

/-- Entries of `gradInput` at or beyond the processed prefix of the inner loop are untouched. -/
lemma bwInner_fst_ge (delta : ℚ) (oIdx i : ℕ) (w x : ℕ → ℚ) :
    ∀ (m : ℕ) (p : (ℕ → ℚ) × (ℕ → ℚ)) (k : ℕ), m ≤ k →
      ((List.range m).foldl (bwInnerStep delta oIdx i w x) p).1 k = p.1 k := by
  intro m
  induction m with
  | zero => intro p k _; rfl
  | succ n ih =>
    intro p k hk
    rw [List.range_succ, List.foldl_append, List.foldl_cons, List.foldl_nil]
    show upd ((List.range n).foldl (bwInnerStep delta oIdx i w x) p).1 n _ k = _
    rw [upd, if_neg (by omega)]
    exact ih p k (by omega)

/-- Each processed inner-loop index of `gradInput` has received exactly one `+= delta * weights[oIdx*InputSize + k]` accumulation. -/
lemma bwInner_fst_lt (delta : ℚ) (oIdx i : ℕ) (w x : ℕ → ℚ) :
    ∀ (m : ℕ) (p : (ℕ → ℚ) × (ℕ → ℚ)) (k : ℕ), k < m →
      ((List.range m).foldl (bwInnerStep delta oIdx i w x) p).1 k =
        p.1 k + delta * w (oIdx * i + k) := by
  intro m
  induction m with
  | zero => omega
  | succ n ih =>
    intro p k hk
    rw [List.range_succ, List.foldl_append, List.foldl_cons, List.foldl_nil]
    show upd ((List.range n).foldl (bwInnerStep delta oIdx i w x) p).1 n
      (((List.range n).foldl (bwInnerStep delta oIdx i w x) p).1 n + delta * w (oIdx * i + n)) k = _
    rcases Nat.lt_or_ge k n with hkn | hkn
    · rw [upd, if_neg (by omega)]
      exact ih p k hkn
    · have hk' : k = n := by omega
      subst hk'
      rw [upd, if_pos rfl, bwInner_fst_ge delta oIdx i w x k p k (le_refl k)]

/-- Entries of `gradWeights` outside the row written by the inner loop are untouched. -/
lemma bwInner_snd_miss (delta : ℚ) (oIdx i : ℕ) (w x : ℕ → ℚ) :
    ∀ (m : ℕ) (p : (ℕ → ℚ) × (ℕ → ℚ)) (idx : ℕ), (∀ k < m, idx ≠ oIdx * i + k) →
      ((List.range m).foldl (bwInnerStep delta oIdx i w x) p).2 idx = p.2 idx := by
  intro m
  induction m with
  | zero => intro p idx _; rfl
  | succ n ih =>
    intro p idx hidx
    rw [List.range_succ, List.foldl_append, List.foldl_cons, List.foldl_nil]
    show upd ((List.range n).foldl (bwInnerStep delta oIdx i w x) p).2 (oIdx * i + n) _ idx = _
    rw [upd, if_neg (hidx n (by omega))]
    exact ih p idx (fun k hk => hidx k (by omega))

/-- Each processed inner-loop index of `gradWeights` has received exactly one `+= delta * lastInput[k]` accumulation. -/
lemma bwInner_snd_hit (delta : ℚ) (oIdx i : ℕ) (w x : ℕ → ℚ) :
    ∀ (m : ℕ) (p : (ℕ → ℚ) × (ℕ → ℚ)) (k : ℕ), k < m →
      ((List.range m).foldl (bwInnerStep delta oIdx i w x) p).2 (oIdx * i + k) =
        p.2 (oIdx * i + k) + delta * x k := by
  intro m
  induction m with
  | zero => omega
  | succ n ih =>
    intro p k hk
    rw [List.range_succ, List.foldl_append, List.foldl_cons, List.foldl_nil]
    show upd ((List.range n).foldl (bwInnerStep delta oIdx i w x) p).2 (oIdx * i + n)
      (((List.range n).foldl (bwInnerStep delta oIdx i w x) p).2 (oIdx * i + n) + delta * x n)
      (oIdx * i + k) = _
    rcases Nat.lt_or_ge k n with hkn | hkn
    · have hne : oIdx * i + k ≠ oIdx * i + n := by
        intro hcon
        exact absurd (Nat.add_left_cancel hcon) (by omega)
      rw [upd, if_neg hne]
      exact ih p k hkn
    · have hk' : k = n := by omega
      subst hk'
      rw [upd, if_pos rfl,
        bwInner_snd_miss delta oIdx i w x k p (oIdx * i + k)
          (fun u hu hcon => absurd (Nat.add_left_cancel hcon) (by omega))]

/-- Row-major indices of earlier rows lie strictly below those of later rows. -/
lemma rowIdx_lt (j m k u i : ℕ) (hj : j < m) (hk : k < i) :
    j * i + k < m * i + u := by
  have h1 : (j + 1) * i ≤ m * i := Nat.mul_le_mul_right i (by omega)
  rw [Nat.succ_mul] at h1
  omega

/-- Bias gradients at or beyond the processed prefix of the outer loop are untouched. -/
lemma bwOuter_gb_ge {i o : ℕ} (A : ActivationFunction) (l : DenseLayer i o)
    (gOut : ℕ → ℚ) :
    ∀ (m : ℕ) (st : (ℕ → ℚ) × (ℕ → ℚ) × (ℕ → ℚ)) (j : ℕ), m ≤ j →
      ((List.range m).foldl (bwOuterStep A l gOut) st).1 j = st.1 j := by
  intro m
  induction m with
  | zero => intro st j _; rfl
  | succ n ih =>
    intro st j hj
    rw [List.range_succ, List.foldl_append, List.foldl_cons, List.foldl_nil]
    show upd ((List.range n).foldl (bwOuterStep A l gOut) st).1 n _ j = _
    rw [upd, if_neg (by omega)]
    exact ih st j (by omega)

/-- Each processed output unit's bias gradient has received exactly one `+= delta` accumulation. -/
lemma bwOuter_gb_lt {i o : ℕ} (A : ActivationFunction) (l : DenseLayer i o)
    (gOut : ℕ → ℚ) :
    ∀ (m : ℕ) (st : (ℕ → ℚ) × (ℕ → ℚ) × (ℕ → ℚ)) (j : ℕ), j < m →
      ((List.range m).foldl (bwOuterStep A l gOut) st).1 j =
        st.1 j + gOut j * A.derivative (l.lastActivation j) := by
  intro m
  induction m with
  | zero => omega
  | succ n ih =>
    intro st j hj
    rw [List.range_succ, List.foldl_append, List.foldl_cons, List.foldl_nil]
    show upd ((List.range n).foldl (bwOuterStep A l gOut) st).1 n
      (((List.range n).foldl (bwOuterStep A l gOut) st).1 n +
        gOut n * A.derivative (l.lastActivation n)) j = _
    rcases Nat.lt_or_ge j n with hjn | hjn
    · rw [upd, if_neg (by omega)]
      exact ih st j hjn
    · have hj' : j = n := by omega
      subst hj'
      rw [upd, if_pos rfl, bwOuter_gb_ge A l gOut j st j (le_refl j)]

/-- Weight-gradient rows at or beyond the processed prefix of the outer loop are untouched. -/
lemma bwOuter_gw_ge {i o : ℕ} (A : ActivationFunction) (l : DenseLayer i o)
    (gOut : ℕ → ℚ) :
    ∀ (m : ℕ) (st : (ℕ → ℚ) × (ℕ → ℚ) × (ℕ → ℚ)) (j k : ℕ), m ≤ j → k < i →
      ((List.range m).foldl (bwOuterStep A l gOut) st).2.1 (j * i + k) =
        st.2.1 (j * i + k) := by
  intro m
  induction m with
  | zero => intro st j k _ _; rfl
  | succ n ih =>
    intro st j k hj hk
    rw [List.range_succ, List.foldl_append, List.foldl_cons, List.foldl_nil]
    show ((List.range i).foldl
      (bwInnerStep (gOut n * A.derivative (l.lastActivation n)) n i l.weights l.lastInput)
      (((List.range n).foldl (bwOuterStep A l gOut) st).2.2,
       ((List.range n).foldl (bwOuterStep A l gOut) st).2.1)).2 (j * i + k) = _
    rw [bwInner_snd_miss _ n i _ _ i _ (j * i + k)
      (fun u hu hcon => absurd hcon (Nat.ne_of_gt (rowIdx_lt n j u k i (by omega) hu)))]
    exact ih st j k (by omega) hk

/-- Each processed output unit's weight-gradient row has received exactly one `+= delta * lastInput[k]` accumulation per column. -/
lemma bwOuter_gw_lt {i o : ℕ} (A : ActivationFunction) (l : DenseLayer i o)
    (gOut : ℕ → ℚ) :
    ∀ (m : ℕ) (st : (ℕ → ℚ) × (ℕ → ℚ) × (ℕ → ℚ)) (j k : ℕ), j < m → k < i →
      ((List.range m).foldl (bwOuterStep A l gOut) st).2.1 (j * i + k) =
        st.2.1 (j * i + k) +
          gOut j * A.derivative (l.lastActivation j) * l.lastInput k := by
  intro m
  induction m with
  | zero => omega
  | succ n ih =>
    intro st j k hj hk
    rw [List.range_succ, List.foldl_append, List.foldl_cons, List.foldl_nil]
    show ((List.range i).foldl
      (bwInnerStep (gOut n * A.derivative (l.lastActivation n)) n i l.weights l.lastInput)
      (((List.range n).foldl (bwOuterStep A l gOut) st).2.2,
       ((List.range n).foldl (bwOuterStep A l gOut) st).2.1)).2 (j * i + k) = _
    rcases Nat.lt_or_ge j n with hjn | hjn
    · rw [bwInner_snd_miss _ n i _ _ i _ (j * i + k)
        (fun u hu hcon => absurd hcon (Nat.ne_of_lt (rowIdx_lt j n k u i hjn hk)))]
      exact ih st j k hjn hk
    · have hj' : j = n := by omega
      subst hj'
      rw [bwInner_snd_hit _ j i _ _ i _ k hk]
      dsimp only
      rw [bwOuter_gw_ge A l gOut j st j k (le_refl j) hk]

/-- Unfolding one step of an accumulation loop. -/
lemma sumRange_succ (n : ℕ) (f : ℕ → ℚ) :
    sumRange (n + 1) f = sumRange n f + f n := by
  simp [sumRange, List.range_succ]

/-- After `m` outer iterations, `gradInput[k]` holds its initial value plus the partial sum of `delta_j * weights[j*InputSize + k]` over the processed units. -/
lemma bwOuter_gi {i o : ℕ} (A : ActivationFunction) (l : DenseLayer i o)
    (gOut : ℕ → ℚ) :
    ∀ (m : ℕ) (st : (ℕ → ℚ) × (ℕ → ℚ) × (ℕ → ℚ)) (k : ℕ), k < i →
      ((List.range m).foldl (bwOuterStep A l gOut) st).2.2 k =
        st.2.2 k + sumRange m (fun j =>
          gOut j * A.derivative (l.lastActivation j) * l.weights (j * i + k)) := by
  intro m
  induction m with
  | zero =>
    intro st k _
    show st.2.2 k = st.2.2 k + sumRange 0 _
    simp [sumRange]
  | succ n ih =>
    intro st k hk
    rw [List.range_succ, List.foldl_append, List.foldl_cons, List.foldl_nil]
    show ((List.range i).foldl
      (bwInnerStep (gOut n * A.derivative (l.lastActivation n)) n i l.weights l.lastInput)
      (((List.range n).foldl (bwOuterStep A l gOut) st).2.2,
       ((List.range n).foldl (bwOuterStep A l gOut) st).2.1)).1 k = _
    rw [bwInner_fst_lt _ n i _ _ i _ k hk]
    dsimp only
    rw [ih st k hk, sumRange_succ]
    ring

/-- `Dense::backward` accumulates `gradBiases[o] += gradOutput[o] * derivative(lastActivation[o])`. -/
lemma backward_gradBiases {i o : ℕ} (A : ActivationFunction) (l : DenseLayer i o)
    (gOut gIn : ℕ → ℚ) (oIdx : ℕ) (ho : oIdx < o) :
    ((l.backward A gOut gIn).1).gradBiases oIdx =
      l.gradBiases oIdx + gOut oIdx * A.derivative (l.lastActivation oIdx) :=
  bwOuter_gb_lt A l gOut o
    (l.gradBiases, l.gradWeights, fun k => if k < i then 0 else gIn k) oIdx ho

/-- `Dense::backward` accumulates `gradWeights[o*InputSize + k] += delta * lastInput[k]`. -/
lemma backward_gradWeights {i o : ℕ} (A : ActivationFunction) (l : DenseLayer i o)
    (gOut gIn : ℕ → ℚ) (oIdx k : ℕ) (ho : oIdx < o) (hk : k < i) :
    ((l.backward A gOut gIn).1).gradWeights (oIdx * i + k) =
      l.gradWeights (oIdx * i + k) +
        gOut oIdx * A.derivative (l.lastActivation oIdx) * l.lastInput k :=
  bwOuter_gw_lt A l gOut o
    (l.gradBiases, l.gradWeights, fun u => if u < i then 0 else gIn u) oIdx k ho hk

/-- `Dense::backward` writes `gradInput[k] = sum over o of delta_o * weights[o*InputSize + k]`, on top of the internal zeroing of `gradInput`. -/
lemma backward_gradInput {i o : ℕ} (A : ActivationFunction) (l : DenseLayer i o)
    (gOut gIn : ℕ → ℚ) (k : ℕ) (hk : k < i) :
    (l.backward A gOut gIn).2 k =
      sumRange o (fun j =>
        gOut j * A.derivative (l.lastActivation j) * l.weights (j * i + k)) := by
  have h := bwOuter_gi A l gOut o
    (l.gradBiases, l.gradWeights, fun u => if u < i then 0 else gIn u) k hk
  rw [show (l.backward A gOut gIn).2 k =
    ((List.range o).foldl (bwOuterStep A l gOut)
      (l.gradBiases, l.gradWeights, fun u => if u < i then 0 else gIn u)).2.2 k from rfl,
    h]
  dsimp only
  rw [if_pos hk, zero_add]

/-- Claim C1: for a Dense layer whose caches were populated by an immediately preceding forward call, `backward(gradOut)` computes `delta = gradOut[o] * Activation::derivative(lastActivation[o])` per output unit, accumulates `gradBiases[o] += delta` and `gradWeights[o,i] += delta * lastInput[i]` (with `lastInput = the forwarded input`), and writes `gradIn[i] = sum over o of delta * weights[o,i]`, the layer having zeroed `gradIn` internally before accumulating. -/
theorem dense_backward_spec {i o : ℕ} (A : ActivationFunction)
    (l : DenseLayer i o) (inp out gOut gIn : ℕ → ℚ) (oIdx k : ℕ)
    (ho : oIdx < o) (hk : k < i) :
    (((l.forward A inp out).1.backward A gOut gIn).1).gradBiases oIdx =
      l.gradBiases oIdx +
        gOut oIdx * A.derivative ((l.forward A inp out).1.lastActivation oIdx) ∧
    (((l.forward A inp out).1.backward A gOut gIn).1).gradWeights (oIdx * i + k) =
      l.gradWeights (oIdx * i + k) +
        gOut oIdx * A.derivative ((l.forward A inp out).1.lastActivation oIdx) * inp k ∧
    ((l.forward A inp out).1.backward A gOut gIn).2 k =
      sumRange o (fun j =>
        gOut j * A.derivative ((l.forward A inp out).1.lastActivation j) *
          l.weights (j * i + k)) := by
  have hli : (l.forward A inp out).1.lastInput k = inp k := by
    simp [DenseLayer.forward, hk]
  refine ⟨?_, ?_, ?_⟩
  · exact backward_gradBiases A (l.forward A inp out).1 gOut gIn oIdx ho
  · rw [backward_gradWeights A (l.forward A inp out).1 gOut gIn oIdx k ho hk, hli]
    rfl
  · exact backward_gradInput A (l.forward A inp out).1 gOut gIn k hk

/-- Concrete `Dense(1 -> 2)` layer with weights `[3, 4]` for the C1
witness. -/
def d12 : DenseLayer 1 2 where
  weights := fun idx => ([3, 4] : List ℚ).getD idx 0
  biases := fun _ => 0
  gradWeights := fun _ => 0
  gradBiases := fun _ => 0
  lastInput := fun _ => 0
  lastActivation := fun _ => 0

/-- Witness for C1 at a concrete `Dense(1 -> 2, Identity)` layer, input
`[2]` and output gradient `[5, 7]`. -/
theorem dense_backward_spec_witness :
    1 < 2 ∧ 0 < 1 ∧
    ((((d12.forward Identity (fun _ => 2) (fun _ => 0)).1.backward Identity
        (fun j => ([5, 7] : List ℚ).getD j 0) (fun _ => 9)).1).gradBiases 1 =
      d12.gradBiases 1 +
        ([5, 7] : List ℚ).getD 1 0 * Identity.derivative
          ((d12.forward Identity (fun _ => 2) (fun _ => 0)).1.lastActivation 1) ∧
     (((d12.forward Identity (fun _ => 2) (fun _ => 0)).1.backward Identity
        (fun j => ([5, 7] : List ℚ).getD j 0) (fun _ => 9)).1).gradWeights (1 * 1 + 0) =
      d12.gradWeights (1 * 1 + 0) +
        ([5, 7] : List ℚ).getD 1 0 * Identity.derivative
          ((d12.forward Identity (fun _ => 2) (fun _ => 0)).1.lastActivation 1) *
          (fun _ => (2 : ℚ)) 0 ∧
     ((d12.forward Identity (fun _ => 2) (fun _ => 0)).1.backward Identity
        (fun j => ([5, 7] : List ℚ).getD j 0) (fun _ => 9)).2 0 =
      sumRange 2 (fun j =>
        ([5, 7] : List ℚ).getD j 0 * Identity.derivative
          ((d12.forward Identity (fun _ => 2) (fun _ => 0)).1.lastActivation j) *
          d12.weights (j * 1 + 0))) :=
  ⟨by decide, by decide,
   dense_backward_spec Identity d12 (fun _ => 2) (fun _ => 0)
     (fun j => ([5, 7] : List ℚ).getD j 0) (fun _ => 9) 1 0
     (by decide) (by decide)⟩

/-- Accumulation loops that agree on every processed index produce the same sum. -/
lemma sumRange_congr (n : ℕ) (f g : ℕ → ℚ) (h : ∀ t < n, f t = g t) :
    sumRange n f = sumRange n g := by
  induction n with
  | zero => rfl
  | succ m ih =>
    rw [sumRange_succ, sumRange_succ, ih (fun t ht => h t (by omega)), h m (by omega)]

/-- A layer's forward pass reads only the first `InputSize` entries of its input buffer. -/
lemma apply_agree (L : NetLayer) (a b : ℕ → ℚ)
    (h : ∀ t < L.inSize, a t = b t) (j : ℕ) :
    L.apply a j = L.apply b j := by
  unfold NetLayer.apply
  rw [sumRange_congr L.inSize _ _ (fun t ht => by rw [h t ht])]

/-- Parity alternation: the buffer layer `k` writes to is the buffer layer `k+1` reads from. -/
lemma selectOut_eq_selectIn_succ (k : ℕ) :
    NN.selectOutputBuffer (k % 2 == 0) = NN.selectInputBuffer ((k + 1) % 2 == 0) := by
  rcases Nat.mod_two_eq_zero_or_one k with h | h <;>
    simp [NN.selectOutputBuffer, NN.selectInputBuffer, h, Nat.add_mod]

/-- After running layers `L :: rest` starting at layer index `k`, the buffer selected by the parity of the last layer index holds the composed forward result on every entry below the network's output width. -/
lemma predictImpl_correct :
    ∀ (rest : List NetLayer) (L : NetLayer) (k : ℕ) (bufs : Fin 2 → ℕ → ℚ)
      (v : ℕ → ℚ),
      chainedB (L :: rest) = true →
      (∀ j < L.inSize, bufs (NN.selectInputBuffer (k % 2 == 0)) j = v j) →
      ∀ j < lastOutSize (L :: rest),
        NN.predictImpl (L :: rest) k bufs
            (NN.selectOutputBuffer ((k + (L :: rest).length - 1) % 2 == 0)) j =
          chainApply (L :: rest) v j := by
  intro rest
  induction rest with
  | nil =>
    intro L k bufs v hch hagree j hj
    show NN.forwardLayer k L bufs
      (NN.selectOutputBuffer ((k + 1 - 1) % 2 == 0)) j = L.apply v j
    rw [show k + 1 - 1 = k from rfl, NN.forwardLayer, if_pos rfl]
    rw [writeForward, if_pos (show j < L.outSize from hj)]
    exact apply_agree L _ v hagree j
  | cons M rest2 ih =>
    intro L k bufs v hch hagree j hj
    rw [show chainedB (L :: M :: rest2) =
      ((L.outSize == M.inSize) && chainedB (M :: rest2)) from rfl,
      Bool.and_eq_true] at hch
    obtain ⟨hbeq, hch2⟩ := hch
    have hout : L.outSize = M.inSize := by simpa using hbeq
    show NN.predictImpl (M :: rest2) (k + 1) (NN.forwardLayer k L bufs)
      (NN.selectOutputBuffer ((k + (L :: M :: rest2).length - 1) % 2 == 0)) j = _
    have hidx : k + (L :: M :: rest2).length - 1 = (k + 1) + (M :: rest2).length - 1 := by
      simp only [List.length_cons]
      omega
    rw [hidx]
    have hagree2 : ∀ t < M.inSize,
        (NN.forwardLayer k L bufs) (NN.selectInputBuffer ((k + 1) % 2 == 0)) t =
          L.apply v t := by
      intro t ht
      rw [← selectOut_eq_selectIn_succ k, NN.forwardLayer, if_pos rfl,
        writeForward, if_pos (by omega)]
      exact apply_agree L _ v hagree t
    have hj2 : j < lastOutSize (M :: rest2) := hj
    have := ih M (k + 1) (NN.forwardLayer k L bufs) (L.apply v) hch2 hagree2 j hj2
    rw [this]
    rfl

/-- Claim C3: `predict` copies the input into scratch buffer A (`initialBufs`/`inputLoad`); each layer `k` reads from the buffer selected by the parity of `k` and writes to the other, so no layer reads and writes the same buffer; after the last layer the result is copied out of the buffer selected by the parity of the last layer index into an independently owned output, and that result is the composition of the layers' forward passes applied to the loaded input. -/
theorem predict_buffer_spec (Ls : List NetLayer) (x : List ℚ)
    (hne : Ls ≠ []) (hch : chainedB Ls = true)
    (hx : x.length = firstInSize Ls) :
    (∀ u : Bool, NN.selectInputBuffer u ≠ NN.selectOutputBuffer u) ∧
    (∀ j < lastOutSize Ls, NN.predict Ls x j = chainApply Ls (inputLoad x) j) := by
  refine ⟨by decide, ?_⟩
  intro j hj
  cases Ls with
  | nil => exact absurd rfl hne
  | cons L rest =>
    show (if j < lastOutSize (L :: rest) then
      NN.predictImpl (L :: rest) 0 (initialBufs x)
        (NN.selectOutputBuffer (((L :: rest).length - 1) % 2 == 0)) j else 0) = _
    rw [if_pos hj]
    have hagree : ∀ t < L.inSize,
        (initialBufs x) (NN.selectInputBuffer (0 % 2 == 0)) t = inputLoad x t := by
      intro t ht
      rfl
    have hidx : (L :: rest).length - 1 = 0 + (L :: rest).length - 1 := by omega
    rw [hidx]
    exact predictImpl_correct rest L 0 (initialBufs x) (inputLoad x) hch hagree j hj

/-- First layer of the witness network: `Dense(2 -> 2, Identity)` with the identity weight matrix. -/
def netL1 : NetLayer := ⟨2, 2, Identity, fun idx => ([1, 0, 0, 1] : List ℚ).getD idx 0, fun _ => 0⟩

/-- Second layer of the witness network: `Dense(2 -> 1, Identity)` with weights `[1, 1]`. -/
def netL2 : NetLayer := ⟨2, 1, Identity, fun idx => ([1, 1] : List ℚ).getD idx 0, fun _ => 0⟩

/-- Concrete two-layer network for the C3 witness. -/
def pingNet : List NetLayer := [netL1, netL2]

/-- Witness for C3 at the concrete two-layer identity network on input `[1/2, 1/3]`. -/
theorem predict_buffer_spec_witness :
    pingNet ≠ [] ∧ chainedB pingNet = true ∧
    ([1/2, 1/3] : List ℚ).length = firstInSize pingNet ∧
    ((∀ u : Bool, NN.selectInputBuffer u ≠ NN.selectOutputBuffer u) ∧
     (∀ j < lastOutSize pingNet,
       NN.predict pingNet [1/2, 1/3] j = chainApply pingNet (inputLoad [1/2, 1/3]) j)) :=
  ⟨by simp [pingNet], by rfl, by rfl,
   predict_buffer_spec pingNet [1/2, 1/3] (by simp [pingNet]) rfl rfl⟩
